import Mathlib

/-!
Verification of the collaborative document editor's synchronization core.

This file shallowly embeds the repository's operational-transform engine
(`OperationalTransform.apply` / `transform` / `compose` / `diff` /
`createInsertOp`, and `DocumentManager.applyOperation`), the socket server's
`document-operation` handler together with its position-based
`operationalTransform` and the database helper `checkDocumentPermission`,
and the version/branch/merge store (`createDocumentVersion`,
`createDocumentBranch`, `mergeBranch`, and the versions POST route).

JavaScript strings are modelled as `List Char`; machine numbers that are
used as non-negative counts/positions are modelled as `Nat`
(`String.prototype.slice` clamping is mirrored by `List.take` / `List.drop`
clamping); the async database calls are modelled by explicit state passing
on a `DbState` record, and thrown errors by `Except`.
-/

namespace OT

/-- The `TextOperation` tagged variant from the source: retain/insert/delete.
In the source `count` and `text` are optional fields; a missing `count` is
read as `0` (`op.count || 0`) and a missing/empty `text` is skipped, so the
three-constructor inductive with total fields is behaviourally identical. -/
inductive TextOp where
  | retain (count : Nat)
  | insert (text : List Char)
  | delete (count : Nat)
deriving DecidableEq, Repr

/-- The loop body of `OperationalTransform.apply`: walks the operation list
keeping the current string and the cursor `offset`.  `insert` is guarded by
`if (op.text)` (empty text is falsy) and `delete` by `if (op.count)`
(zero is falsy), exactly as in the source; `slice` clamping is mirrored by
`take`/`drop`. -/
def applyGo (result : List Char) (offset : Nat) : List TextOp → List Char
  | [] => result
  | .retain n :: ops => applyGo result (offset + n) ops
  | .insert t :: ops =>
      if t.isEmpty then applyGo result offset ops
      else applyGo (result.take offset ++ t ++ result.drop offset) (offset + t.length) ops
  | .delete n :: ops =>
      if n = 0 then applyGo result offset ops
      else applyGo (result.take offset ++ result.drop (offset + n)) offset ops

/-- `OperationalTransform.apply(content, operations)`. -/
def apply (content : List Char) (operations : List TextOp) : List Char :=
  applyGo content 0 operations

/-- Cumulative retain+delete count of a sequence: the number of source
characters the sequence accounts for.  A sequence is valid for a string
(the spec's implicit precondition) when this equals the string's length. -/
def baseLen : List TextOp → Nat
  | [] => 0
  | .retain n :: ops => n + baseLen ops
  | .insert _ :: ops => baseLen ops
  | .delete n :: ops => n + baseLen ops

/-- The loop of `OperationalTransform.transform(op1, op2)`.  `p1`/`p2` carry
the source's `pos1`/`pos2` variables, which are initialised to `0` and never
updated.  The retain/retain case consumes `min` of the two counts and leaves
the remainder at the head (the source updates `op1[i1]` in place); all other
shapes advance whole operations, and any combination involving a delete
falls to the catch-all push-both case. -/
def transformGo (p1 p2 : Nat) : List TextOp → List TextOp → List TextOp × List TextOp
  | [], [] => ([], [])
  | [], o2 :: r2 =>
      let t := transformGo p1 p2 [] r2
      (t.1, o2 :: t.2)
  | o1 :: r1, [] =>
      let t := transformGo p1 p2 r1 []
      (o1 :: t.1, t.2)
  | .retain c1 :: r1, .retain c2 :: r2 =>
      let m := min c1 c2
      let rest1 := if m < c1 then TextOp.retain (c1 - m) :: r1 else r1
      let rest2 := if m < c2 then TextOp.retain (c2 - m) :: r2 else r2
      let t := transformGo p1 p2 rest1 rest2
      (.retain m :: t.1, .retain m :: t.2)
  | .insert t1 :: r1, .retain c2 :: r2 =>
      let t := transformGo p1 p2 r1 (.retain c2 :: r2)
      (.insert t1 :: t.1, .retain t1.length :: t.2)
  | .retain c1 :: r1, .insert t2 :: r2 =>
      let t := transformGo p1 p2 (.retain c1 :: r1) r2
      (.retain t2.length :: t.1, .insert t2 :: t.2)
  | .insert t1 :: r1, .insert t2 :: r2 =>
      if p1 ≤ p2 then
        let t := transformGo p1 p2 r1 (.insert t2 :: r2)
        (.insert t1 :: t.1, .retain t1.length :: t.2)
      else
        let t := transformGo p1 p2 (.insert t1 :: r1) r2
        (.retain t2.length :: t.1, .insert t2 :: t.2)
  | o1 :: r1, o2 :: r2 =>
      let t := transformGo p1 p2 r1 r2
      (o1 :: t.1, o2 :: t.2)
termination_by l1 l2 => l1.length + l2.length
decreasing_by
  all_goals simp_arith [*]
  · split <;> split <;> simp_arith
    omega

/-- `OperationalTransform.transform(op1, op2)`: `pos1 = pos2 = 0`. -/
def transform (op1 op2 : List TextOp) : List TextOp × List TextOp :=
  transformGo 0 0 op1 op2

/-- `OperationalTransform.compose(ops1, ops2)`: the source always advances
both indices once the initial null checks pass, pushing `retain (min)` for
retain/retain, only `op1` for insert/retain, and both operations otherwise. -/
def compose : List TextOp → List TextOp → List TextOp
  | [], [] => []
  | [], o2 :: r2 => o2 :: compose [] r2
  | o1 :: r1, [] => o1 :: compose r1 []
  | .retain c1 :: r1, .retain c2 :: r2 => .retain (min c1 c2) :: compose r1 r2
  | .insert t1 :: r1, .retain _ :: r2 => .insert t1 :: compose r1 r2
  | o1 :: r1, o2 :: r2 => o1 :: o2 :: compose r1 r2

/-- `OperationalTransform.createInsertOp(position, text, contentLength)`. -/
def createInsertOp (position : Nat) (text : List Char) (contentLength : Nat) : List TextOp :=
  (if 0 < position then [TextOp.retain position] else []) ++
  [TextOp.insert text] ++
  (if position < contentLength then [TextOp.retain (contentLength - position)] else [])

/-- The common-prefix scan of `OperationalTransform.diff` (`while (i <
minLength && oldContent[i] === newContent[i]) i++`).  The scan stops at the
end of the shorter string, which the recursion does implicitly. -/
def commonPrefixLen : List Char → List Char → Nat
  | a :: as, b :: bs => if a = b then commonPrefixLen as bs + 1 else 0
  | _, _ => 0

/-- `OperationalTransform.diff(oldContent, newContent)`: common-prefix /
common-suffix trimming.  The suffix scan runs while `j < minLength - i` and
the characters `j` back from each end agree, which is the common prefix of
the reversed strings capped at `minLength - i`. -/
def diff (oldContent newContent : List Char) : List TextOp :=
  let minLength := min oldContent.length newContent.length
  let i := commonPrefixLen oldContent newContent
  let j := min (minLength - i) (commonPrefixLen oldContent.reverse newContent.reverse)
  let deleteCount := oldContent.length - i - j
  let insertText := (newContent.take (newContent.length - j)).drop i
  (if 0 < i then [TextOp.retain i] else []) ++
  (if 0 < deleteCount then [TextOp.delete deleteCount] else []) ++
  (if 0 < insertText.length then [TextOp.insert insertText] else []) ++
  (if 0 < j then [TextOp.retain j] else [])

/-- The in-memory state of a `DocumentManager`: current content, version
counter, and the `pendingOperations` map.  A JavaScript `Map` iterates in
insertion order and `set` on an existing key updates the value in place,
which an association list with in-place update models exactly. -/
structure DMState where
  content : List Char
  version : Nat
  pending : List (String × List TextOp)
deriving DecidableEq, Repr

/-- `Map.prototype.set`: replace the value at an existing key in place,
otherwise append the entry. -/
def pendingSet (k : String) (v : List TextOp) : List (String × List TextOp) → List (String × List TextOp)
  | [] => [(k, v)]
  | (k', v') :: rest => if k' = k then (k, v) :: rest else (k', v') :: pendingSet k v rest

/-- Return shape of `DocumentManager.applyOperation`. -/
structure DMResult where
  success : Bool
  transformedOps : Option (List TextOp)
  newVersion : Nat
  newContent : List Char
deriving DecidableEq, Repr

/-- `DocumentManager.applyOperation(clientId, operations, clientVersion)`:
transform the incoming operations against every *other* client's pending
sequence in map order, apply them, bump the version, and record the result
as this client's pending sequence.  `clientVersion` is accepted but never
read by the source.  The `try`/`catch` wrapper is dead code — `apply` and
`transform` contain no throwing operation — so the failure branch returning
`success: false` is unreachable and the model always succeeds. -/
def applyOperation (st : DMState) (clientId : String) (operations : List TextOp)
    (_clientVersion : Nat) : DMState × DMResult :=
  let transformedOps := st.pending.foldl
    (fun acc kv => if kv.1 ≠ clientId then (transform acc kv.2).1 else acc) operations
  let newContent := apply st.content transformedOps
  let newVersion := st.version + 1
  let st' : DMState := ⟨newContent, newVersion, pendingSet clientId transformedOps st.pending⟩
  (st', ⟨true, some transformedOps, newVersion, newContent⟩)

end OT

namespace Server

open OT

/-- `socket.data` once `authenticate` has run: the bound identity. -/
structure SocketData where
  userId : String
  username : String
deriving DecidableEq, Repr

/-- The position-based operation shape consumed by the socket server's
`operationalTransform` (`any`-typed in the source; the fields it reads are
`type`, `position` and `length`). -/
structure PosOp where
  opType : String
  position : Nat
  length : Nat
deriving DecidableEq, Repr

/-- `CollaborativeSocketServer.operationalTransform(clientOp, serverOp)`:
insert/insert and delete/insert shift the client op right by the server
op's length when the client position is strictly greater; every other
combination returns the client op unchanged. -/
def operationalTransform (clientOp serverOp : PosOp) : PosOp :=
  if clientOp.opType = "insert" ∧ serverOp.opType = "insert" then
    if clientOp.position ≤ serverOp.position then clientOp
    else { clientOp with position := clientOp.position + serverOp.length }
  else if clientOp.opType = "delete" ∧ serverOp.opType = "insert" then
    if clientOp.position ≤ serverOp.position then clientOp
    else { clientOp with position := clientOp.position + serverOp.length }
  else clientOp

/-- An operation stored in Redis by `saveOperation`, as read back by
`getOperationsSince`. -/
structure StoredOp where
  op : PosOp
  version : Nat
  timestamp : Nat
deriving DecidableEq, Repr

/-- Stable ascending insertion by timestamp (`sort((a, b) => a.timestamp -
b.timestamp)`). -/
def insertByTimestamp (s : StoredOp) : List StoredOp → List StoredOp
  | [] => [s]
  | t :: ts => if t.timestamp ≤ s.timestamp then t :: insertByTimestamp s ts
               else s :: t :: ts

/-- `getOperationsSince(documentId, version)`: keep stored operations with
`op.version > version`, sorted by timestamp. -/
def getOperationsSince (stored : List StoredOp) (version : Nat) : List StoredOp :=
  ((stored.filter (fun s => version < s.version)).foldl
    (fun acc s => insertByTimestamp s acc) [])

/-- `transformOperation(documentId, operation, clientVersion)`: fold the
client operation through `operationalTransform` against each server
operation since the client's version. -/
def transformOperation (stored : List StoredOp) (operation : PosOp)
    (clientVersion : Nat) : PosOp :=
  (getOperationsSince stored clientVersion).foldl
    (fun acc s => operationalTransform acc s.op) operation

/-- Observable effects of the `document-operation` handler: the room
broadcast and the Redis write. -/
inductive Effect where
  | broadcast (room : String) (op : PosOp) (userId : String)
  | saveOperation (documentId : String) (op : PosOp)
deriving DecidableEq, Repr

/-- The `document-operation` socket handler: `if (!socket.data?.userId)
return;` (an unauthenticated connection, or an empty userId, is dropped
with no effect), otherwise transform, broadcast to the room excluding the
sender, and save.  The Redis state feeding `transformOperation` is passed
in as `stored`.  No permission check of any kind appears in the handler. -/
def documentOperationHandler (sock : Option SocketData) (documentId : String)
    (operation : PosOp) (version : Nat) (stored : List StoredOp) : List Effect :=
  match sock with
  | none => []
  | some d =>
    if d.userId = "" then []
    else
      let transformedOperation := transformOperation stored operation version
      [Effect.broadcast ("document:" ++ documentId) transformedOperation d.userId,
       Effect.saveOperation documentId transformedOperation]

end Server

namespace DB

/-- A row of the `documents` table, with the fields the embedded queries
read: owner, public flag, the `currentVersion`/`content` cache advanced by
`createDocumentVersion`, and the soft-delete marker (`deletedAt IS NULL`). -/
structure DocRow where
  id : String
  ownerId : Nat
  isPublic : Bool
  currentVersion : Nat
  content : String
  deleted : Bool
deriving DecidableEq, Repr

/-- A row of `document_collaborators`. -/
structure CollabRow where
  documentId : String
  userId : Nat
  permission : String
deriving DecidableEq, Repr

/-- A row of `document_versions` (`id` is the serial primary key). -/
structure VersionRow where
  id : Nat
  documentId : String
  version : Nat
  content : String
  branchName : String
  authorId : Nat
  commitMessage : Option String
  parentVersionId : Option Nat
deriving DecidableEq, Repr

/-- A row of `document_branches`.  The schema declares only a non-unique
index `document_branch_idx` on `(documentId, name)`, so nothing prevents
two rows with the same pair. -/
structure BranchRow where
  id : Nat
  documentId : String
  name : String
  createdById : Nat
  isDefault : Bool
deriving DecidableEq, Repr

/-- A row of `document_merges`. -/
structure MergeRow where
  documentId : String
  sourceBranch : String
  targetBranch : String
  sourceVersionId : Nat
  targetVersionId : Nat
  mergeVersionId : Option Nat
  mergedById : Nat
  status : String
deriving DecidableEq, Repr

/-- The durable store the document queries run against. -/
structure DbState where
  documents : List DocRow
  collaborators : List CollabRow
  versions : List VersionRow
  branches : List BranchRow
  merges : List MergeRow
  nextVersionId : Nat
  nextBranchId : Nat
deriving DecidableEq, Repr

/-- `getDocumentById(id)`: first non-deleted row with the id. -/
def getDocumentById (docs : List DocRow) (id : String) : Option DocRow :=
  docs.find? (fun d => d.id = id && !d.deleted)

/-- `[READ, WRITE, ADMIN].indexOf(p)`: `-1` for any unknown string. -/
def permIndex (p : String) : Int :=
  if p = "read" then 0 else if p = "write" then 1 else if p = "admin" then 2 else -1

/-- `checkDocumentPermission(documentId, userId, requiredPermission)`:
owner always passes; public documents grant read and write to any
authenticated user; otherwise the collaborator row's permission level must
reach the required level. -/
def checkDocumentPermission (st : DbState) (documentId : String) (userId : Nat)
    (required : String) : Bool :=
  match getDocumentById st.documents documentId with
  | none => false
  | some doc =>
    if doc.ownerId = userId then true
    else if doc.isPublic ∧ required = "read" then true
    else if doc.isPublic ∧ required = "write" then true
    else
      match st.collaborators.find? (fun c => c.documentId = documentId && c.userId = userId) with
      | none => false
      | some collaborator => permIndex collaborator.permission ≥ permIndex required

/-- The comparator of `orderBy(desc(documentVersions.version))`: rows are
emitted newest version first (tie order among equal versions is unspecified
by the database; any version-descending order is a faithful model). -/
def versionDescOrder (a b : VersionRow) : Prop :=
  b.version ≤ a.version

instance : DecidableRel versionDescOrder := fun a b =>
  inferInstanceAs (Decidable (b.version ≤ a.version))

/-- `getDocumentVersions(documentId, branchName)`: the branch's rows,
newest version first. -/
def getDocumentVersions (st : DbState) (documentId branchName : String) : List VersionRow :=
  List.insertionSort versionDescOrder (st.versions.filter
    (fun v => v.documentId = documentId && v.branchName = branchName))

/-- The latest version on a branch: head of `getDocumentVersions`. -/
def latestVersion (st : DbState) (documentId branchName : String) : Option VersionRow :=
  (getDocumentVersions st documentId branchName).head?

/-- Insert payload for `createDocumentVersion`. -/
structure NewVersion where
  documentId : String
  version : Nat
  content : String
  branchName : String
  authorId : Nat
  commitMessage : Option String
  parentVersionId : Option Nat
deriving DecidableEq, Repr

/-- `createDocumentVersion(data)`: insert the row and update the owning
document's `currentVersion` and cached `content`. -/
def createDocumentVersion (st : DbState) (data : NewVersion) : DbState × VersionRow :=
  let row : VersionRow :=
    { id := st.nextVersionId, documentId := data.documentId, version := data.version,
      content := data.content, branchName := data.branchName, authorId := data.authorId,
      commitMessage := data.commitMessage, parentVersionId := data.parentVersionId }
  ({ st with
      versions := st.versions ++ [row],
      nextVersionId := st.nextVersionId + 1,
      documents := st.documents.map (fun d =>
        if d.id = data.documentId then
          { d with currentVersion := data.version, content := data.content }
        else d) }, row)

/-- `createDocumentBranch(data)`: a plain insert — the source performs no
duplicate-name check and the schema has no unique constraint. -/
def createDocumentBranch (st : DbState) (documentId name : String) (createdById : Nat)
    (isDefault : Bool) : DbState × BranchRow :=
  let row : BranchRow :=
    { id := st.nextBranchId, documentId := documentId, name := name,
      createdById := createdById, isDefault := isDefault }
  ({ st with branches := st.branches ++ [row], nextBranchId := st.nextBranchId + 1 }, row)

/-- `mergeBranch(documentId, sourceBranch, targetBranch, mergedById)`:
throws when either branch has no versions; otherwise creates the merge
version on the target branch numbered `max(latest source, latest target) +
1` with the source's content and the target head as parent, then records a
completed merge. -/
def mergeBranch (st : DbState) (documentId sourceBranch targetBranch : String)
    (mergedById : Nat) : Except String (DbState × MergeRow) :=
  match getDocumentVersions st documentId sourceBranch,
        getDocumentVersions st documentId targetBranch with
  | [], _ => .error "Cannot merge: one or both branches are empty"
  | _ :: _, [] => .error "Cannot merge: one or both branches are empty"
  | latestSource :: _, latestTarget :: _ =>
    let newVersion := max latestSource.version latestTarget.version + 1
    let created := createDocumentVersion st
      { documentId := documentId, version := newVersion, content := latestSource.content,
        branchName := targetBranch, authorId := mergedById,
        commitMessage := some ("Merge branch '" ++ sourceBranch ++ "' into '" ++ targetBranch ++ "'"),
        parentVersionId := some latestTarget.id }
    let merge : MergeRow :=
      { documentId := documentId, sourceBranch := sourceBranch, targetBranch := targetBranch,
        sourceVersionId := latestSource.id, targetVersionId := latestTarget.id,
        mergeVersionId := some created.2.id, mergedById := mergedById, status := "completed" }
    .ok ({ created.1 with merges := created.1.merges ++ [merge] }, merge)

/-- A merge as driven by a caller that catches the throw (the socket
handler's `try`/`catch`): on error no write has happened, so the store is
returned unchanged. -/
def mergeBranchState (st : DbState) (documentId sourceBranch targetBranch : String)
    (mergedById : Nat) : DbState :=
  match mergeBranch st documentId sourceBranch targetBranch mergedById with
  | .ok r => r.1
  | .error _ => st

/-- The versions `POST` route: look up the document, number the new version
`currentVersion + 1`, and create it on the requested branch. -/
def postVersion (st : DbState) (documentId : String) (content : String)
    (branchName : String) (commitMessage : Option String) (parentVersionId : Option Nat)
    (authorId : Nat) : DbState :=
  match getDocumentById st.documents documentId with
  | none => st
  | some document =>
    (createDocumentVersion st
      { documentId := documentId, version := document.currentVersion + 1,
        content := content, branchName := branchName, authorId := authorId,
        commitMessage := commitMessage, parentVersionId := parentVersionId }).1

end DB

namespace OT

/-! ### Lemmas about `apply` -/

theorem applyGo_insert_eq (r : List Char) (o : Nat) (t : List Char) (ops : List TextOp) :
    applyGo r o (.insert t :: ops) =
      applyGo (r.take o ++ t ++ r.drop o) (o + t.length) ops := by
  cases t with
  | nil => simp [applyGo, List.take_append_drop]
  | cons c cs => simp [applyGo]

theorem applyGo_delete_eq (r : List Char) (o n : Nat) (ops : List TextOp) :
    applyGo r o (.delete n :: ops) =
      applyGo (r.take o ++ r.drop (o + n)) o ops := by
  cases n with
  | zero => simp [applyGo, List.take_append_drop]
  | succ m => simp [applyGo]

theorem applyGo_retainIf (r : List Char) (o n : Nat) (ops : List TextOp) :
    applyGo r o ((if 0 < n then [TextOp.retain n] else []) ++ ops) =
      applyGo r (o + n) ops := by
  rcases Nat.eq_zero_or_pos n with h | h
  · simp [h, applyGo]
  · simp [h, applyGo]

theorem applyGo_deleteIf (r : List Char) (o n : Nat) (ops : List TextOp) :
    applyGo r o ((if 0 < n then [TextOp.delete n] else []) ++ ops) =
      applyGo (r.take o ++ r.drop (o + n)) o ops := by
  rcases Nat.eq_zero_or_pos n with h | h
  · simp [h, applyGo, List.take_append_drop]
  · simp [h, applyGo_delete_eq]

theorem applyGo_insertIf (r : List Char) (o : Nat) (t : List Char) (ops : List TextOp) :
    applyGo r o ((if 0 < t.length then [TextOp.insert t] else []) ++ ops) =
      applyGo (r.take o ++ t ++ r.drop o) (o + t.length) ops := by
  rcases Nat.eq_zero_or_pos t.length with h | h
  · rcases List.length_eq_zero.mp h with rfl
    simp [applyGo, List.take_append_drop]
  · simp [h, applyGo_insert_eq]

/-! ### Lemmas about `commonPrefixLen` and `diff` -/

theorem commonPrefixLen_le_left : ∀ l1 l2 : List Char, commonPrefixLen l1 l2 ≤ l1.length := by
  intro l1
  induction l1 with
  | nil => intro l2; cases l2 <;> simp [commonPrefixLen]
  | cons a as ih =>
    intro l2
    cases l2 with
    | nil => simp [commonPrefixLen]
    | cons b bs =>
      by_cases h : a = b <;> simp [commonPrefixLen, h, Nat.succ_le_succ, ih bs]

theorem commonPrefixLen_le_right : ∀ l1 l2 : List Char, commonPrefixLen l1 l2 ≤ l2.length := by
  intro l1
  induction l1 with
  | nil => intro l2; cases l2 <;> simp [commonPrefixLen]
  | cons a as ih =>
    intro l2
    cases l2 with
    | nil => simp [commonPrefixLen]
    | cons b bs =>
      by_cases h : a = b <;> simp [commonPrefixLen, h, Nat.succ_le_succ, ih bs]

theorem take_commonPrefixLen_eq : ∀ l1 l2 : List Char,
    l1.take (commonPrefixLen l1 l2) = l2.take (commonPrefixLen l1 l2) := by
  intro l1
  induction l1 with
  | nil => intro l2; cases l2 <;> simp [commonPrefixLen]
  | cons a as ih =>
    intro l2
    cases l2 with
    | nil => simp [commonPrefixLen]
    | cons b bs =>
      by_cases h : a = b <;> simp [commonPrefixLen, h, ih bs]

theorem take_eq_of_le_commonPrefixLen {l1 l2 : List Char} {j : Nat}
    (h : j ≤ commonPrefixLen l1 l2) : l1.take j = l2.take j := by
  have := congrArg (List.take j) (take_commonPrefixLen_eq l1 l2)
  simpa [List.take_take, Nat.min_eq_left h] using this

theorem drop_eq_of_suffix {l1 l2 : List Char} {j : Nat}
    (h : j ≤ commonPrefixLen l1.reverse l2.reverse) :
    l1.drop (l1.length - j) = l2.drop (l2.length - j) := by
  have h1 : l1.drop (l1.length - j) = (l1.reverse.take j).reverse :=
    List.rtake_eq_reverse_take_reverse l1 j
  have h2 : l2.drop (l2.length - j) = (l2.reverse.take j).reverse :=
    List.rtake_eq_reverse_take_reverse l2 j
  rw [h1, h2, take_eq_of_le_commonPrefixLen h]

/-! ### Unfolding lemmas for `transformGo` -/

/-- `applyGo r o (retain 0 :: ops)` and friends: a guard-skipped zero
operation is a no-op, so a conditional singleton behaves like the retain. -/
theorem applyGo_retainIf_nil (r : List Char) (o n : Nat) :
    applyGo r o (if 0 < n then [TextOp.retain n] else []) = r := by
  rcases Nat.eq_zero_or_pos n with h | h
  · simp [h, applyGo]
  · simp [h, applyGo]

/-- Reference semantics for `apply` with the clamping made explicit: a
retain never moves the cursor past the end, a delete removes at most the
characters that remain, and the cursor invariably stays within the current
string. -/
def applyClampedGo (result : List Char) (offset : Nat) : List TextOp → List Char
  | [] => result
  | .retain n :: ops => applyClampedGo result (min (offset + n) result.length) ops
  | .insert t :: ops =>
      applyClampedGo (result.take offset ++ t ++ result.drop offset) (offset + t.length) ops
  | .delete n :: ops =>
      applyClampedGo (result.take offset ++ result.drop (offset + min n (result.length - offset)))
        offset ops

/-- `apply` with out-of-range spans clamped to the remaining content. -/
def applyClamped (content : List Char) (ops : List TextOp) : List Char :=
  applyClampedGo content 0 ops

theorem applyGo_eq_clamped : ∀ (ops : List TextOp) (r : List Char) (o : Nat),
    applyGo r o ops = applyClampedGo r (min o r.length) ops := by
  intro ops
  induction ops with
  | nil => intro r o; rfl
  | cons op rest ih =>
    intro r o
    cases op with
    | retain n =>
      show applyGo r (o + n) rest = applyClampedGo r (min (min o r.length + n) r.length) rest
      rw [ih r (o + n)]
      congr 1
      omega
    | insert t =>
      rw [applyGo_insert_eq]
      show applyGo (r.take o ++ t ++ r.drop o) (o + t.length) rest =
        applyClampedGo (r.take (min o r.length) ++ t ++ r.drop (min o r.length))
          (min o r.length + t.length) rest
      have htake : r.take o = r.take (min o r.length) := by
        rcases Nat.le_total o r.length with h | h
        · rw [Nat.min_eq_left h]
        · rw [Nat.min_eq_right h, List.take_of_length_le h,
            List.take_of_length_le (Nat.le_refl _)]
      have hdrop : r.drop o = r.drop (min o r.length) := by
        rcases Nat.le_total o r.length with h | h
        · rw [Nat.min_eq_left h]
        · rw [Nat.min_eq_right h, List.drop_eq_nil_of_le h,
            List.drop_eq_nil_of_le (Nat.le_refl _)]
      rw [← htake, ← hdrop, ih]
      congr 1
      simp [List.length_take, List.length_drop]
      omega
    | delete n =>
      rw [applyGo_delete_eq]
      show applyGo (r.take o ++ r.drop (o + n)) o rest =
        applyClampedGo
          (r.take (min o r.length) ++
            r.drop (min o r.length + min n (r.length - min o r.length)))
          (min o r.length) rest
      have htake : r.take o = r.take (min o r.length) := by
        rcases Nat.le_total o r.length with h | h
        · rw [Nat.min_eq_left h]
        · rw [Nat.min_eq_right h, List.take_of_length_le h,
            List.take_of_length_le (Nat.le_refl _)]
      have hdrop : r.drop (o + n) = r.drop (min o r.length + min n (r.length - min o r.length)) := by
        rcases Nat.le_total o r.length with h | h
        · rw [Nat.min_eq_left h]
          rcases Nat.le_total n (r.length - o) with h2 | h2
          · rw [Nat.min_eq_left h2]
          · rw [Nat.min_eq_right h2, List.drop_eq_nil_of_le (by omega),
              List.drop_eq_nil_of_le (by omega)]
        · rw [Nat.min_eq_right h, List.drop_eq_nil_of_le (by omega),
            List.drop_eq_nil_of_le (by omega)]
      rw [← htake, ← hdrop, ih]
      congr 1
      simp [List.length_take, List.length_drop]
      omega

theorem transformGo_nil_left (p1 p2 : Nat) : ∀ l, transformGo p1 p2 [] l = ([], l) := by
  intro l
  induction l with
  | nil => simp [transformGo]
  | cons o r ih => simp [transformGo, ih]

theorem transformGo_nil_right (p1 p2 : Nat) : ∀ l, transformGo p1 p2 l [] = (l, []) := by
  intro l
  induction l with
  | nil => simp [transformGo]
  | cons o r ih => rw [transformGo]; simp [ih]

theorem transformGo_retain_retain_eq (p1 p2 c : Nat) (r1 r2 : List TextOp) :
    transformGo p1 p2 (.retain c :: r1) (.retain c :: r2) =
      ((TextOp.retain c :: (transformGo p1 p2 r1 r2).1),
       (TextOp.retain c :: (transformGo p1 p2 r1 r2).2)) := by
  rw [transformGo]
  simp

theorem transformGo_insert_insert (t1 t2 : List Char) (r1 r2 : List TextOp) :
    transformGo 0 0 (.insert t1 :: r1) (.insert t2 :: r2) =
      ((TextOp.insert t1 :: (transformGo 0 0 r1 (.insert t2 :: r2)).1),
       (TextOp.retain t1.length :: (transformGo 0 0 r1 (.insert t2 :: r2)).2)) := by
  rw [transformGo]
  simp

theorem transformGo_insert_retain (p1 p2 c : Nat) (t1 : List Char) (r1 r2 : List TextOp) :
    transformGo p1 p2 (.insert t1 :: r1) (.retain c :: r2) =
      ((TextOp.insert t1 :: (transformGo p1 p2 r1 (.retain c :: r2)).1),
       (TextOp.retain t1.length :: (transformGo p1 p2 r1 (.retain c :: r2)).2)) := by
  rw [transformGo]

theorem transformGo_retain_insert (p1 p2 c : Nat) (t2 : List Char) (r1 r2 : List TextOp) :
    transformGo p1 p2 (.retain c :: r1) (.insert t2 :: r2) =
      ((TextOp.retain t2.length :: (transformGo p1 p2 (.retain c :: r1) r2).1),
       (TextOp.insert t2 :: (transformGo p1 p2 (.retain c :: r1) r2).2)) := by
  rw [transformGo]

theorem take_prefix_append (l t : List Char) (p : Nat) (h : p ≤ l.length) :
    (l.take p ++ t).take p = l.take p := by
  rw [List.take_append_of_le_length (by simp; omega), List.take_take]
  simp

theorem drop_prefix_append (l t : List Char) (p : Nat) (h : p ≤ l.length) :
    (l.take p ++ t).drop p = t := by
  rw [List.drop_append_of_le_length (by simp; omega),
    List.drop_eq_nil_of_le (by simp)]
  exact List.nil_append t

theorem take_prefix_append2 (l t u : List Char) (p : Nat) (h : p ≤ l.length) :
    (l.take p ++ (t ++ u)).take (p + t.length) = l.take p ++ t := by
  have hl : (l.take p ++ t).length = p + t.length := by simp; omega
  rw [← List.append_assoc, ← hl, List.take_left]

theorem drop_prefix_append2 (l t u : List Char) (p : Nat) (h : p ≤ l.length) :
    (l.take p ++ (t ++ u)).drop (p + t.length) = u := by
  have hl : (l.take p ++ t).length = p + t.length := by simp; omega
  rw [← List.append_assoc, ← hl, List.drop_left]

theorem transform_insert_insert_tiebreak (s tA tB : List Char) (p : Nat) (hp : p ≤ s.length) :
      apply (apply s (createInsertOp p tA s.length))
          (transform (createInsertOp p tB s.length) (createInsertOp p tA s.length)).1 =
        s.take p ++ tB ++ tA ++ s.drop p ∧
      apply (apply s (createInsertOp p tB s.length))
          (transform (createInsertOp p tB s.length) (createInsertOp p tA s.length)).2 =
        s.take p ++ tB ++ tA ++ s.drop p := by
  have applyGo_retain_eq : ∀ (r : List Char) (o n : Nat) (ops : List TextOp),
      applyGo r o (.retain n :: ops) = applyGo r (o + n) ops := fun _ _ _ _ => rfl
  have applyGo_nil : ∀ (r : List Char) (o : Nat), applyGo r o [] = r := fun _ _ => rfl
  rcases Nat.lt_or_ge p s.length with hlt | hge
  · rcases Nat.eq_zero_or_pos p with rfl | hp0
    · -- p = 0 < s.length
      have e : ∀ t : List Char, createInsertOp 0 t s.length = [.insert t, .retain s.length] := by
        intro t; simp [createInsertOp, hlt]
      rw [e tA, e tB]
      have htr : transform [TextOp.insert tB, TextOp.retain s.length]
          [TextOp.insert tA, TextOp.retain s.length] =
          ([TextOp.insert tB, TextOp.retain tA.length, TextOp.retain s.length],
           [TextOp.retain tB.length, TextOp.insert tA, TextOp.retain s.length]) := by
        rw [transform, transformGo_insert_insert, transformGo_retain_insert,
          transformGo_retain_retain_eq, transformGo_nil_left]
      rw [htr]
      constructor
      · simp [apply, applyGo_retain_eq, applyGo_insert_eq, applyGo_nil]
      · simp [apply, applyGo_retain_eq, applyGo_insert_eq, applyGo_nil,
          List.take_left, List.drop_left]
    · -- 0 < p < s.length
      have e : ∀ t : List Char, createInsertOp p t s.length =
          [.retain p, .insert t, .retain (s.length - p)] := by
        intro t; simp [createInsertOp, hp0, hlt]
      rw [e tA, e tB]
      have htr : transform [TextOp.retain p, TextOp.insert tB, TextOp.retain (s.length - p)]
          [TextOp.retain p, TextOp.insert tA, TextOp.retain (s.length - p)] =
          ([TextOp.retain p, TextOp.insert tB, TextOp.retain tA.length,
            TextOp.retain (s.length - p)],
           [TextOp.retain p, TextOp.retain tB.length, TextOp.insert tA,
            TextOp.retain (s.length - p)]) := by
        rw [transform, transformGo_retain_retain_eq, transformGo_insert_insert,
          transformGo_retain_insert, transformGo_retain_retain_eq, transformGo_nil_left]
      rw [htr]
      constructor
      · simp [apply, applyGo_retain_eq, applyGo_insert_eq, applyGo_nil,
          take_prefix_append, drop_prefix_append, hp]
      · simp [apply, applyGo_retain_eq, applyGo_insert_eq, applyGo_nil,
          take_prefix_append, drop_prefix_append, take_prefix_append2, drop_prefix_append2, hp]
  · have hpe : p = s.length := Nat.le_antisymm hp hge
    rcases Nat.eq_zero_or_pos p with rfl | hp0
    · -- p = 0 = s.length : s = []
      have hs : s = [] := List.length_eq_zero.mp hpe.symm
      subst hs
      simp only [List.length_nil]
      have e : ∀ t : List Char, createInsertOp 0 t 0 = [.insert t] := by
        intro t; simp [createInsertOp]
      rw [e tA, e tB]
      have htr : transform [TextOp.insert tB] [TextOp.insert tA] =
          ([TextOp.insert tB], [TextOp.retain tB.length, TextOp.insert tA]) := by
        rw [transform, transformGo_insert_insert, transformGo_nil_left]
      rw [htr]
      constructor
      · simp [apply, applyGo_retain_eq, applyGo_insert_eq, applyGo_nil]
      · simp [apply, applyGo_retain_eq, applyGo_insert_eq, applyGo_nil,
          List.take_left, List.drop_left]
    · -- 0 < p = s.length
      have e : ∀ t : List Char, createInsertOp p t s.length = [.retain p, .insert t] := by
        intro t; simp [createInsertOp, hp0, Nat.not_lt.mpr hge]
      rw [e tA, e tB]
      have htr : transform [TextOp.retain p, TextOp.insert tB]
          [TextOp.retain p, TextOp.insert tA] =
          ([TextOp.retain p, TextOp.insert tB],
           [TextOp.retain p, TextOp.retain tB.length, TextOp.insert tA]) := by
        rw [transform, transformGo_retain_retain_eq, transformGo_insert_insert,
          transformGo_nil_left]
      rw [htr]
      constructor
      · simp [apply, applyGo_retain_eq, applyGo_insert_eq, applyGo_nil,
          take_prefix_append, drop_prefix_append, hp]
      · simp [apply, applyGo_retain_eq, applyGo_insert_eq, applyGo_nil,
          take_prefix_append, drop_prefix_append, take_prefix_append2, drop_prefix_append2, hp]

end OT

namespace DB

instance : IsTotal VersionRow versionDescOrder :=
  ⟨fun a b => Nat.le_total b.version a.version⟩

instance : IsTrans VersionRow versionDescOrder :=
  ⟨fun _ _ _ hab hbc => Nat.le_trans hbc hab⟩

/-- The head of `getDocumentVersions` bounds the version number of every
row of that document and branch. -/
theorem latestVersion_is_max (st : DbState) (d b : String) (lt v : VersionRow)
    (hl : latestVersion st d b = some lt) (hv : v ∈ st.versions)
    (hd : v.documentId = d) (hb : v.branchName = b) : v.version ≤ lt.version := by
  unfold latestVersion getDocumentVersions at hl
  set l := st.versions.filter (fun w => w.documentId = d && w.branchName = b) with hldef
  have hmem : v ∈ List.insertionSort versionDescOrder l := by
    rw [(List.perm_insertionSort versionDescOrder l).mem_iff]
    rw [hldef, List.mem_filter]
    exact ⟨hv, by simp [hd, hb]⟩
  have hs := List.sorted_insertionSort versionDescOrder l
  cases hsort : List.insertionSort versionDescOrder l with
  | nil => rw [hsort] at hmem; simp at hmem
  | cons h tail =>
    rw [hsort] at hl hmem hs
    simp only [List.head?] at hl
    have hh : h = lt := by simpa using hl
    subst hh
    rcases List.mem_cons.mp hmem with rfl | htail
    · exact Nat.le_refl _
    · exact (List.sorted_cons.mp hs).1 v htail

/-- If `latestVersion` is `some`, `getDocumentVersions` is a cons headed by
that row. -/
theorem getDocumentVersions_eq_cons (st : DbState) (d b : String) (lt : VersionRow)
    (hl : latestVersion st d b = some lt) :
    ∃ tail, getDocumentVersions st d b = lt :: tail := by
  unfold latestVersion at hl
  cases hsort : getDocumentVersions st d b with
  | nil => rw [hsort] at hl; simp at hl
  | cons h tail =>
    rw [hsort] at hl
    simp only [List.head?] at hl
    exact ⟨tail, by simpa using congrArg (fun x => x :: tail) (by simpa using hl)⟩

end DB

/-! ## Concrete stores used as test fixtures -/

namespace DB

/-- Scenario-3 store: document `"doc"` whose `feature` branch head is
version 5 with content `"X"` (row id 10) and whose `main` branch head is
version 3 with content `"Y"` (row id 11). -/
def mergeFixture : DbState :=
  { documents := [⟨"doc", 1, false, 5, "X", false⟩],
    collaborators := [],
    versions := [⟨10, "doc", 5, "X", "feature", 1, none, none⟩,
                 ⟨11, "doc", 3, "Y", "main", 1, none, none⟩],
    branches := [⟨1, "doc", "main", 1, true⟩, ⟨2, "doc", "feature", 1, false⟩],
    merges := [], nextVersionId := 12, nextBranchId := 3 }

/-- A store in which document `"d"` already has a branch named `"main"`. -/
def branchFixture : DbState :=
  { documents := [⟨"d", 1, false, 1, "", false⟩],
    collaborators := [],
    versions := [],
    branches := [⟨1, "d", "main", 1, true⟩],
    merges := [], nextVersionId := 1, nextBranchId := 2 }

/-- A store with a private document `"doc"` owned by user 1 and no
collaborator rows: user 2 has no permission on it at all. -/
def permFixture : DbState :=
  { documents := [⟨"doc", 1, false, 1, "", false⟩],
    collaborators := [],
    versions := [],
    branches := [],
    merges := [], nextVersionId := 1, nextBranchId := 1 }

/-- The store as `createDocument` leaves it for a document `"d"`: one
initial version on `main` and `currentVersion = 1`. -/
def traceInit : DbState :=
  { documents := [⟨"d", 1, false, 1, "init", false⟩],
    collaborators := [],
    versions := [⟨1, "d", 1, "init", "main", 1, some "Initial commit", none⟩],
    branches := [⟨1, "d", "main", 1, true⟩],
    merges := [], nextVersionId := 2, nextBranchId := 2 }

/-- Interleave three POSTs (branches `b`, `c`, `c`), a merge of `b` into
`main`, and a final POST on `c`.  The merge renumbers the document's
`currentVersion` down to 3, so the last POST on `c` is numbered 4 again. -/
def traceFinal : DbState :=
  postVersion
    (mergeBranchState
      (postVersion
        (postVersion
          (postVersion traceInit "d" "cb" "b" none none 1)
          "d" "cc1" "c" none none 1)
        "d" "cc2" "c" none none 1)
      "d" "b" "main" 1)
    "d" "cc3" "c" none none 1

end DB

/-! ## Claims -/

/-- C1: the claimed OT convergence property
`apply(apply(s,a), transform(b,a)) == apply(apply(s,b), transform(a,b))`
fails on the source's `transform`.  With base `s = ""` and the two valid
single-insert sequences `a = [Insert "A"]`, `b = [Insert "B"]`, the
insert/insert case always keeps the first argument first (`pos1 <= pos2`
holds because both are permanently 0), so the two application orders
produce `"BA"` and `"AB"`. -/
theorem claim1_transform_not_convergent :
    OT.baseLen [OT.TextOp.insert ['A']] = ([] : List Char).length ∧
    OT.baseLen [OT.TextOp.insert ['B']] = ([] : List Char).length ∧
    OT.apply (OT.apply [] [OT.TextOp.insert ['A']])
      (OT.transform [OT.TextOp.insert ['B']] [OT.TextOp.insert ['A']]).1 = ['B', 'A'] ∧
    OT.apply (OT.apply [] [OT.TextOp.insert ['B']])
      (OT.transform [OT.TextOp.insert ['A']] [OT.TextOp.insert ['B']]).1 = ['A', 'B'] ∧
    (['B', 'A'] : List Char) ≠ ['A', 'B'] := by
  refine ⟨rfl, rfl, ?_, ?_, by decide⟩ <;>
    simp [OT.apply, OT.applyGo, OT.transform, OT.transformGo]

/-- C2: an operation whose cumulative retain+delete count (10) exceeds the
content length (2) is not rejected: `DocumentManager.applyOperation`
returns `success: true` and increments the version, because `apply` clamps
out-of-range spans instead of throwing and the `catch` branch is dead
code. -/
theorem claim2_malformed_operation_not_rejected :
    OT.baseLen [OT.TextOp.retain 5, OT.TextOp.delete 5] = 10 ∧
    (⟨['a', 'b'], 1, []⟩ : OT.DMState).content.length = 2 ∧
    (OT.applyOperation ⟨['a', 'b'], 1, []⟩ "c1"
      [OT.TextOp.retain 5, OT.TextOp.delete 5] 1).2.success = true ∧
    (OT.applyOperation ⟨['a', 'b'], 1, []⟩ "c1"
      [OT.TextOp.retain 5, OT.TextOp.delete 5] 1).2.newVersion = 2 ∧
    (OT.applyOperation ⟨['a', 'b'], 1, []⟩ "c1"
      [OT.TextOp.retain 5, OT.TextOp.delete 5] 1).1.version ≠ 1 := by
  decide

/-- C3 (counterexample): the first-processed insert does not win the tie.
In the socket server's `operationalTransform` a later client insert at the
same position 5 is returned unchanged (position 5, not `5 + 3`); in the OT
engine, transforming B's insert against already-processed A's insert at
the same position leaves B's text before A's, so the final string is
`"abcdeBAAAfgh"` and not the claimed `"abcdeAAABfgh"`. -/
theorem claim3_tiebreak_counterexample :
    Server.operationalTransform ⟨"insert", 5, 1⟩ ⟨"insert", 5, 3⟩ = ⟨"insert", 5, 1⟩ ∧
    (5 : Nat) ≠ 5 + 3 ∧
    OT.apply
      (OT.apply ['a', 'b', 'c', 'd', 'e', 'f', 'g', 'h']
        (OT.createInsertOp 5 ['A', 'A', 'A'] 8))
      (OT.transform (OT.createInsertOp 5 ['B'] 8)
        (OT.createInsertOp 5 ['A', 'A', 'A'] 8)).1 =
      ['a', 'b', 'c', 'd', 'e', 'B', 'A', 'A', 'A', 'f', 'g', 'h'] ∧
    (['a', 'b', 'c', 'd', 'e', 'B', 'A', 'A', 'A', 'f', 'g', 'h'] : List Char) ≠
      ['a', 'b', 'c', 'd', 'e', 'A', 'A', 'A', 'B', 'f', 'g', 'h'] := by
  refine ⟨by decide, by decide, ?_, by decide⟩
  simp [OT.createInsertOp, OT.transform, OT.transformGo, OT.apply, OT.applyGo]

/-- C3 (amended): for two concurrent inserts at the same position, the
*later*-processed operation wins position priority: transforming the
incoming sequence B against the already-processed A leaves B's insert at
the original position (B's text lands first) and shifts A past it, and the
two application orders still converge on `take p ++ tB ++ tA ++ drop p`;
in the socket server's `operationalTransform` a client insert at a
position ≤ the server op's position is returned unchanged. -/
theorem claim3_tiebreak_amended :
    (∀ (s tA tB : List Char) (p : Nat), p ≤ s.length →
      OT.apply (OT.apply s (OT.createInsertOp p tA s.length))
          (OT.transform (OT.createInsertOp p tB s.length)
            (OT.createInsertOp p tA s.length)).1 =
        s.take p ++ tB ++ tA ++ s.drop p ∧
      OT.apply (OT.apply s (OT.createInsertOp p tB s.length))
          (OT.transform (OT.createInsertOp p tB s.length)
            (OT.createInsertOp p tA s.length)).2 =
        s.take p ++ tB ++ tA ++ s.drop p) ∧
    (∀ clientOp serverOp : Server.PosOp, clientOp.opType = "insert" →
      serverOp.opType = "insert" → clientOp.position ≤ serverOp.position →
      Server.operationalTransform clientOp serverOp = clientOp) := by
  constructor
  · exact fun s tA tB p hp => OT.transform_insert_insert_tiebreak s tA tB p hp
  · intro c a hc ha hle
    simp [Server.operationalTransform, hc, ha, hle]

/-- C3 (witness): the amended tie-break statement at the scenario input:
8-character base, both clients inserting at position 5. -/
theorem claim3_tiebreak_amended_witness :
    (5 ≤ (['a', 'b', 'c', 'd', 'e', 'f', 'g', 'h'] : List Char).length ∧
     (OT.apply
        (OT.apply ['a', 'b', 'c', 'd', 'e', 'f', 'g', 'h']
          (OT.createInsertOp 5 ['A', 'A', 'A']
            (['a', 'b', 'c', 'd', 'e', 'f', 'g', 'h'] : List Char).length))
        (OT.transform
          (OT.createInsertOp 5 ['B']
            (['a', 'b', 'c', 'd', 'e', 'f', 'g', 'h'] : List Char).length)
          (OT.createInsertOp 5 ['A', 'A', 'A']
            (['a', 'b', 'c', 'd', 'e', 'f', 'g', 'h'] : List Char).length)).1 =
       (['a', 'b', 'c', 'd', 'e', 'f', 'g', 'h'] : List Char).take 5 ++ ['B'] ++
         ['A', 'A', 'A'] ++ (['a', 'b', 'c', 'd', 'e', 'f', 'g', 'h'] : List Char).drop 5)) ∧
    ((⟨"insert", 5, 1⟩ : Server.PosOp).opType = "insert" ∧
     (⟨"insert", 5, 3⟩ : Server.PosOp).opType = "insert" ∧
     (⟨"insert", 5, 1⟩ : Server.PosOp).position ≤ (⟨"insert", 5, 3⟩ : Server.PosOp).position ∧
     Server.operationalTransform ⟨"insert", 5, 1⟩ ⟨"insert", 5, 3⟩ = ⟨"insert", 5, 1⟩) :=
  ⟨⟨by decide,
    (claim3_tiebreak_amended.1 ['a', 'b', 'c', 'd', 'e', 'f', 'g', 'h'] ['A', 'A', 'A'] ['B'] 5
      (by decide)).1⟩,
   rfl, rfl, by decide,
   claim3_tiebreak_amended.2 ⟨"insert", 5, 1⟩ ⟨"insert", 5, 3⟩ rfl rfl (by decide)⟩

/-- C4: diff/apply round-trip — for every pair of strings,
`apply(s1, diff(s1, s2)) = s2`: the common-prefix/common-suffix trim of
`diff` produces a retain/delete/insert/retain sequence that rebuilds `s2`
exactly. -/
theorem claim4_diff_apply_roundtrip (s1 s2 : List Char) :
    OT.apply s1 (OT.diff s1 s2) = s2 := by
  have hi1 := OT.commonPrefixLen_le_left s1 s2
  have hi2 := OT.commonPrefixLen_le_right s1 s2
  rw [OT.diff, OT.apply]
  set i := OT.commonPrefixLen s1 s2 with hidef
  set k := OT.commonPrefixLen s1.reverse s2.reverse with hkdef
  set j := min (min s1.length s2.length - i) k with hjdef
  have hjk : j ≤ k := Nat.min_le_right _ _
  have hjle : j ≤ min s1.length s2.length - i := Nat.min_le_left _ _
  have hij1 : i + j ≤ s1.length := by omega
  have hij2 : i + j ≤ s2.length := by omega
  rw [List.append_assoc, List.append_assoc]
  rw [OT.applyGo_retainIf, OT.applyGo_deleteIf, OT.applyGo_insertIf, OT.applyGo_retainIf_nil]
  have hd : (0 + i) + (s1.length - i - j) = s1.length - j := by omega
  rw [hd]
  simp only [Nat.zero_add]
  have hMtake : ((s1.take i ++ s1.drop (s1.length - j)).take i) = s1.take i := by
    rw [List.take_append_of_le_length (by simp; omega)]
    simp [List.take_take]
  have hMdrop : ((s1.take i ++ s1.drop (s1.length - j)).drop i) = s1.drop (s1.length - j) := by
    rw [List.drop_append_of_le_length (by simp; omega)]
    simp [List.drop_take]
  rw [hMtake, hMdrop]
  rw [show s1.take i = s2.take i from by rw [hidef]; exact OT.take_commonPrefixLen_eq s1 s2]
  rw [show s1.drop (s1.length - j) = s2.drop (s2.length - j) from
    OT.drop_eq_of_suffix (by rw [← hkdef]; exact hjk)]
  rw [show s2.take i = (s2.take (s2.length - j)).take i from by
    rw [List.take_take, Nat.min_eq_left (by omega)]]
  rw [List.take_append_drop, List.take_append_drop]

/-- C5: compose is not equivalent to sequential application.  With
`s = ""`, `opsA = [Insert "X"]` (valid for `s`) and `opsB = [Delete 1]`
(valid for `apply(s, opsA) = "X"`), the insert/delete case pushes both
operations, and applying the composite deletes nothing (the cursor is past
the inserted text), giving `"X"` instead of `""`. -/
theorem claim5_compose_not_equivalent :
    OT.baseLen [OT.TextOp.insert ['X']] = ([] : List Char).length ∧
    OT.baseLen [OT.TextOp.delete 1] =
      (OT.apply [] [OT.TextOp.insert ['X']]).length ∧
    OT.apply [] (OT.compose [OT.TextOp.insert ['X']] [OT.TextOp.delete 1]) = ['X'] ∧
    OT.apply (OT.apply [] [OT.TextOp.insert ['X']]) [OT.TextOp.delete 1] = [] ∧
    (['X'] : List Char) ≠ [] := by
  refine ⟨rfl, rfl, ?_, ?_, by decide⟩ <;>
    simp [OT.compose, OT.apply, OT.applyGo]

/-- C6: mergeBranch postconditions.  When both branches have a latest
version, the merge succeeds and appends exactly one version row numbered
`max(latest source, latest target) + 1`, carrying the source's content
(source-wins), placed on the target branch with the target head as parent,
together with a `completed` merge record pointing at it; when either
branch is empty it throws the empty-branch error and the store is
unchanged. -/
theorem claim6_mergeBranch_postconditions (st : DB.DbState) (d s t : String) (u : Nat) :
    (∀ ls lt, DB.latestVersion st d s = some ls → DB.latestVersion st d t = some lt →
      (DB.mergeBranch st d s t u).isOk = true ∧
      ∀ st' m, DB.mergeBranch st d s t u = Except.ok (st', m) →
        ∃ r, st'.versions = st.versions ++ [r] ∧
          r.version = max ls.version lt.version + 1 ∧
          r.content = ls.content ∧
          r.branchName = t ∧
          r.parentVersionId = some lt.id ∧
          st'.merges = st.merges ++ [m] ∧
          m.status = "completed" ∧
          m.mergeVersionId = some r.id) ∧
    ((DB.latestVersion st d s = none ∨ DB.latestVersion st d t = none) →
      DB.mergeBranch st d s t u = Except.error "Cannot merge: one or both branches are empty" ∧
      DB.mergeBranchState st d s t u = st) := by
  constructor
  · intro ls lt hs ht
    obtain ⟨tls, hseq⟩ := DB.getDocumentVersions_eq_cons st d s ls hs
    obtain ⟨tlt, hteq⟩ := DB.getDocumentVersions_eq_cons st d t lt ht
    constructor
    · simp [DB.mergeBranch, hseq, hteq, Except.isOk, Except.toBool]
    · intro st' m hok
      simp only [DB.mergeBranch, hseq, hteq, Except.ok.injEq, Prod.mk.injEq] at hok
      obtain ⟨hst', hm⟩ := hok
      refine ⟨(DB.createDocumentVersion st
        { documentId := d, version := max ls.version lt.version + 1, content := ls.content,
          branchName := t, authorId := u,
          commitMessage := some ("Merge branch '" ++ s ++ "' into '" ++ t ++ "'"),
          parentVersionId := some lt.id }).2, ?_, ?_, ?_, ?_, ?_, ?_, ?_, ?_⟩ <;>
        simp [← hst', ← hm, DB.createDocumentVersion]
  · intro h
    have he : DB.mergeBranch st d s t u =
        Except.error "Cannot merge: one or both branches are empty" := by
      rcases h with h | h
      · unfold DB.latestVersion at h
        cases hsort : DB.getDocumentVersions st d s with
        | nil => simp [DB.mergeBranch, hsort]
        | cons a tl => rw [hsort] at h; simp [List.head?] at h
      · unfold DB.latestVersion at h
        cases hsort : DB.getDocumentVersions st d t with
        | nil =>
          cases hsort2 : DB.getDocumentVersions st d s with
          | nil => simp [DB.mergeBranch, hsort, hsort2]
          | cons a tl => simp [DB.mergeBranch, hsort, hsort2]
        | cons a tl => rw [hsort] at h; simp [List.head?] at h
    exact ⟨he, by simp [DB.mergeBranchState, he]⟩

/-- C6 (witness): the scenario-3 store — merging `feature` (version 5,
content "X") into `main` (version 3, content "Y") succeeds, and merging
from a non-existent branch errors. -/
theorem claim6_mergeBranch_postconditions_witness :
    (DB.latestVersion DB.mergeFixture "doc" "feature" =
       some ⟨10, "doc", 5, "X", "feature", 1, none, none⟩ ∧
     DB.latestVersion DB.mergeFixture "doc" "main" =
       some ⟨11, "doc", 3, "Y", "main", 1, none, none⟩ ∧
     (DB.mergeBranch DB.mergeFixture "doc" "feature" "main" 7).isOk = true) ∧
    (DB.latestVersion DB.mergeFixture "doc" "nosuch" = none ∧
     DB.mergeBranch DB.mergeFixture "doc" "nosuch" "main" 7 =
       Except.error "Cannot merge: one or both branches are empty") :=
  ⟨⟨by decide, by decide,
    ((claim6_mergeBranch_postconditions DB.mergeFixture "doc" "feature" "main" 7).1
      ⟨10, "doc", 5, "X", "feature", 1, none, none⟩
      ⟨11, "doc", 3, "Y", "main", 1, none, none⟩ (by decide) (by decide)).1⟩,
   by decide,
   ((claim6_mergeBranch_postconditions DB.mergeFixture "doc" "nosuch" "main" 7).2
     (Or.inl (by decide))).1⟩

/-- C7 (counterexample): `createDocumentBranch` performs no duplicate
check — called on a store that already has a `main` branch for the
document, it inserts a second `main` row instead of failing, so the branch
set changes. -/
theorem claim7_duplicate_branch_counterexample :
    (DB.branchFixture.branches.filter
      (fun b => b.documentId = "d" && b.name = "main")).length = 1 ∧
    ((DB.createDocumentBranch DB.branchFixture "d" "main" 1 false).1.branches.filter
      (fun b => b.documentId = "d" && b.name = "main")).length = 2 ∧
    (DB.createDocumentBranch DB.branchFixture "d" "main" 1 false).1.branches ≠
      DB.branchFixture.branches := by
  decide

/-- C7 (amended): `createDocumentBranch` is a plain insert: for every
store and payload it appends exactly one branch row, whether or not a
branch of that name already exists for the document (the schema's
`document_branch_idx` is a non-unique index, so the database does not
reject duplicates either). -/
theorem claim7_createBranch_always_inserts :
    ∀ (st : DB.DbState) (documentId name : String) (createdById : Nat) (isDefault : Bool),
      (DB.createDocumentBranch st documentId name createdById isDefault).1.branches =
        st.branches ++ [(DB.createDocumentBranch st documentId name createdById isDefault).2] :=
  fun _ _ _ _ _ => rfl

/-- C8 (counterexample): write permission is not checked by the
`document-operation` handler.  User 2 has no permission on the private
document `"doc"` (`checkDocumentPermission` is `false` even for read), yet
an authenticated connection for user 2 still produces the room broadcast
and the Redis save. -/
theorem claim8_permission_not_checked_counterexample :
    DB.checkDocumentPermission DB.permFixture "doc" 2 "write" = false ∧
    DB.checkDocumentPermission DB.permFixture "doc" 2 "read" = false ∧
    Server.documentOperationHandler (some ⟨"2", "bob"⟩) "doc" ⟨"insert", 5, 1⟩ 0 [] =
      [Server.Effect.broadcast "document:doc" ⟨"insert", 5, 1⟩ "2",
       Server.Effect.saveOperation "doc" ⟨"insert", 5, 1⟩] ∧
    Server.documentOperationHandler (some ⟨"2", "bob"⟩) "doc" ⟨"insert", 5, 1⟩ 0 [] ≠ [] := by
  decide

/-- C8 (amended): the handler gates only on authentication: a connection
with no bound identity (or an empty userId) is dropped with no transform,
no broadcast and no save; any authenticated connection is processed —
transform, broadcast to the document room and save — regardless of the
user's permissions, which the handler never consults. -/
theorem claim8_auth_only_gating :
    (∀ (documentId : String) (op : Server.PosOp) (version : Nat)
        (stored : List Server.StoredOp),
      Server.documentOperationHandler none documentId op version stored = []) ∧
    (∀ (d : Server.SocketData) (documentId : String) (op : Server.PosOp) (version : Nat)
        (stored : List Server.StoredOp), d.userId ≠ "" →
      Server.documentOperationHandler (some d) documentId op version stored =
        [Server.Effect.broadcast ("document:" ++ documentId)
           (Server.transformOperation stored op version) d.userId,
         Server.Effect.saveOperation documentId
           (Server.transformOperation stored op version)]) := by
  constructor
  · intro _ _ _ _
    rfl
  · intro d documentId op version stored h
    simp [Server.documentOperationHandler, h]

/-- C8 (witness): the amended gating at a concrete unauthenticated message
and a concrete authenticated one. -/
theorem claim8_auth_only_gating_witness :
    Server.documentOperationHandler none "doc" ⟨"insert", 5, 1⟩ 0 [] = [] ∧
    (("2" : String) ≠ "" ∧
     Server.documentOperationHandler (some ⟨"2", "bob"⟩) "doc" ⟨"insert", 5, 1⟩ 0 [] =
       [Server.Effect.broadcast ("document:" ++ "doc")
          (Server.transformOperation [] ⟨"insert", 5, 1⟩ 0) "2",
        Server.Effect.saveOperation "doc"
          (Server.transformOperation [] ⟨"insert", 5, 1⟩ 0)]) :=
  ⟨claim8_auth_only_gating.1 "doc" ⟨"insert", 5, 1⟩ 0 [],
   by decide,
   claim8_auth_only_gating.2 ⟨"2", "bob"⟩ "doc" ⟨"insert", 5, 1⟩ 0 [] (by decide)⟩

/-- C9 (counterexample): version numbers on a branch are not strictly
increasing, not gap-free, and are reused.  Starting from a fresh document
(version 1 on `main`), POSTing to branches `b`, `c`, `c`, merging `b` into
`main`, then POSTing to `c` again creates the version sequence 3, 4, 4 on
branch `c` (the merge rewound the document's `currentVersion` from 4 to
3), and `main` holds versions 1 and 3 with 2 skipped. -/
theorem claim9_version_numbers_counterexample :
    ((DB.traceFinal.versions.filter
        (fun v => v.documentId = "d" && v.branchName = "c")).map
      (fun v => v.version)) = [3, 4, 4] ∧
    ¬ List.Pairwise (fun a b => a < b) [3, 4, 4] ∧
    ((DB.traceFinal.versions.filter
        (fun v => v.documentId = "d" && v.branchName = "main")).map
      (fun v => v.version)) = [1, 3] ∧
    ¬ (2 ∈ ([1, 3] : List Nat)) := by
  refine ⟨rfl, by decide, rfl, by decide⟩

/-- C9 (amended): what does hold is per-merge monotonicity: whenever both
branches have a latest version, `mergeBranch` succeeds and its new version
number `max(latest source, latest target) + 1` strictly exceeds every
version already on the target branch.  Gap-freedom and non-reuse fail
(see the counterexample) because the versions POST route numbers from the
document-wide `currentVersion` counter, which a merge can rewind. -/
theorem claim9_merge_version_monotone (st : DB.DbState) (d s t : String) (u : Nat)
    (ls lt : DB.VersionRow) (hs : DB.latestVersion st d s = some ls)
    (ht : DB.latestVersion st d t = some lt) :
    (DB.mergeBranch st d s t u).isOk = true ∧
    ∀ v ∈ st.versions, v.documentId = d → v.branchName = t →
      v.version < max ls.version lt.version + 1 := by
  obtain ⟨tls, hseq⟩ := DB.getDocumentVersions_eq_cons st d s ls hs
  obtain ⟨tlt, hteq⟩ := DB.getDocumentVersions_eq_cons st d t lt ht
  constructor
  · simp [DB.mergeBranch, hseq, hteq, Except.isOk, Except.toBool]
  · intro v hv hd hb
    have := DB.latestVersion_is_max st d t lt v ht hv hd hb
    omega

/-- C9 (witness): the merge monotonicity at the scenario-3 store. -/
theorem claim9_merge_version_monotone_witness :
    DB.latestVersion DB.mergeFixture "doc" "feature" =
      some ⟨10, "doc", 5, "X", "feature", 1, none, none⟩ ∧
    DB.latestVersion DB.mergeFixture "doc" "main" =
      some ⟨11, "doc", 3, "Y", "main", 1, none, none⟩ ∧
    (DB.mergeBranch DB.mergeFixture "doc" "feature" "main" 7).isOk = true :=
  ⟨by decide, by decide,
   (claim9_merge_version_monotone DB.mergeFixture "doc" "feature" "main" 7
     ⟨10, "doc", 5, "X", "feature", 1, none, none⟩
     ⟨11, "doc", 3, "Y", "main", 1, none, none⟩ (by decide) (by decide)).1⟩

/-- C10: totality of `apply` with silent clamping.  `apply` is a total
function of its two arguments by construction (it is defined by structural
recursion with no failure case, mirroring the exception-free source), and
for every content string and operation list — including lists whose
retain or delete counts run past the end of the content — it agrees with
`applyClamped`, the semantics in which every retain and delete span is
explicitly clamped to the content that remains and the cursor never moves
past the end. -/
theorem claim10_apply_total_clamped :
    ∀ (content : List Char) (operations : List OT.TextOp),
      OT.apply content operations = OT.applyClamped content operations := by
  intro content operations
  rw [OT.apply, OT.applyClamped, OT.applyGo_eq_clamped]
  congr 1
  omega
